import Mathlib

/-!
Shallow embedding of the calendar/announcement cogs of the discord bot
(src/main.py, src/cogs/train_schedule.py, src/cogs/events.py,
src/cogs/calendar.py), together with theorems settling the frozen claims
about announcement deduplication, reconciliation diffing, fanout fault
behaviour, time formatting and persisted-state loading.
-/

namespace BotModel

/-- Decimal digit characters of a natural number, most significant first,
mirroring Python's `str(n)` for the numeric fields of `strftime`.
The first argument is fuel; it strictly dominates the value. -/
def natDigitsAux : Nat → Nat → List Char
  | 0, _ => []
  | fuel + 1, n =>
    if n < 10 then [Nat.digitChar n]
    else natDigitsAux fuel (n / 10) ++ [Nat.digitChar (n % 10)]

def natStr (n : Nat) : String := ⟨natDigitsAux (n + 1) n⟩

/-- Zero-padded two-digit rendering, as `%d`, `%H`, `%I`, `%M` produce. -/
def pad2 (n : Nat) : String := if n < 10 then "0" ++ natStr n else natStr n

/-- Zero-padded four-digit rendering, for ISO year fields. -/
def pad4 (n : Nat) : String :=
  if n < 10 then "000" ++ natStr n
  else if n < 100 then "00" ++ natStr n
  else if n < 1000 then "0" ++ natStr n
  else natStr n

/-- `%A` weekday names, indexed with 0 = Sunday (Sakamoto convention). -/
def weekdayName : Nat → String
  | 0 => "Sunday"
  | 1 => "Monday"
  | 2 => "Tuesday"
  | 3 => "Wednesday"
  | 4 => "Thursday"
  | 5 => "Friday"
  | _ => "Saturday"

/-- `%b` abbreviated month names (months are 1-based). -/
def monthAbbrev : Nat → String
  | 1 => "Jan" | 2 => "Feb" | 3 => "Mar" | 4 => "Apr"
  | 5 => "May" | 6 => "Jun" | 7 => "Jul" | 8 => "Aug"
  | 9 => "Sep" | 10 => "Oct" | 11 => "Nov" | 12 => "Dec"
  | _ => ""

/-- `%B` full month names (months are 1-based). -/
def monthFull : Nat → String
  | 1 => "January" | 2 => "February" | 3 => "March" | 4 => "April"
  | 5 => "May" | 6 => "June" | 7 => "July" | 8 => "August"
  | 9 => "September" | 10 => "October" | 11 => "November" | 12 => "December"
  | _ => ""

def isLeap (y : Nat) : Bool := (y % 4 == 0 && y % 100 != 0) || y % 400 == 0

def daysInMonth (y m : Nat) : Nat :=
  if m = 2 then (if isLeap y then 29 else 28)
  else if m = 4 ∨ m = 6 ∨ m = 9 ∨ m = 11 then 30
  else 31

/-- Day of week by Sakamoto's method, 0 = Sunday. -/
def dayOfWeek (y m d : Nat) : Nat :=
  let t : List Nat := [0, 3, 2, 5, 0, 3, 5, 1, 4, 6, 2, 4]
  let y' := if m < 3 then y - 1 else y
  (y' + y' / 4 + y' / 400 + t.getD (m - 1) 0 + d - y' / 100) % 7

structure SimpleDate where
  year : Nat
  month : Nat
  day : Nat
deriving DecidableEq, Repr

/-- A calendar instant, represented by its civil time in UTC (the code
normalizes `Z` to `+00:00` before parsing, so parsed instants are UTC). -/
structure CivilDateTime where
  year : Nat
  month : Nat
  day : Nat
  hour : Nat
  minute : Nat
deriving DecidableEq, Repr

/-- The `start` field of a fetched event: either `start.date` (all-day,
its raw string has no `T`) or `start.dateTime` (its raw string has a `T`).
The code's `'T' in start` test corresponds exactly to this variant. -/
inductive EventStart where
  | date (d : SimpleDate)
  | dateTime (dt : CivilDateTime)
deriving DecidableEq, Repr

/-- `%I`: 12-hour clock number, zero mapped to 12. -/
def hour12 (h : Nat) : Nat := if h % 12 = 0 then 12 else h % 12

/-- `%p` marker as Python produces it. -/
def ampm (h : Nat) : String := if h < 12 then "AM" else "PM"

def minutesOfDay (dt : CivilDateTime) : Nat := dt.hour * 60 + dt.minute

def prevDay (y m d : Nat) : Nat × Nat × Nat :=
  if d > 1 then (y, m, d - 1)
  else if m > 1 then (y, m - 1, daysInMonth y (m - 1))
  else (y - 1, 12, 31)

/-- `astimezone(timezone(timedelta(hours=-2)))` applied to a UTC civil
time: the fixed target offset of the bot is UTC-2, so the displayed civil
time is the UTC civil time shifted back two hours. -/
def shiftBack2h (dt : CivilDateTime) : CivilDateTime :=
  if dt.hour ≥ 2 then ⟨dt.year, dt.month, dt.day, dt.hour - 2, dt.minute⟩
  else
    let p := prevDay dt.year dt.month dt.day
    ⟨p.1, p.2.1, p.2.2, dt.hour + 22, dt.minute⟩

/-- `strftime('%A, %b %d')`. -/
def dateAbbrevFmt (y m d : Nat) : String :=
  weekdayName (dayOfWeek y m d) ++ ", " ++ monthAbbrev m ++ " " ++ pad2 d

/-- `strftime('%A, %b %d at %I:%M %p')` (events cog, timed starts). -/
def eventsTimedFmt (dt : CivilDateTime) : String :=
  dateAbbrevFmt dt.year dt.month dt.day ++ " at " ++ pad2 (hour12 dt.hour) ++ ":" ++
    pad2 dt.minute ++ " " ++ ampm dt.hour

/-- `strftime('%A, %b %d at %H:%M')` (train cog, timed starts). -/
def trainTimedFmt (dt : CivilDateTime) : String :=
  dateAbbrevFmt dt.year dt.month dt.day ++ " at " ++ pad2 dt.hour ++ ":" ++ pad2 dt.minute

/-- `strftime('%A, %B %d at %I:%M %p UTC')` (calendar cog live summary). -/
def calTimedFmt (dt : CivilDateTime) : String :=
  weekdayName (dayOfWeek dt.year dt.month dt.day) ++ ", " ++ monthFull dt.month ++ " " ++
    pad2 dt.day ++ " at " ++ pad2 (hour12 dt.hour) ++ ":" ++ pad2 dt.minute ++ " " ++
    ampm dt.hour ++ " UTC"

/-- Start rendering of `events.py update_events_post` (lines 129-135):
timed starts are converted to the fixed UTC-2 offset, date-only starts are
formatted without any time-of-day. -/
def eventsRenderStart : EventStart → String
  | .dateTime dt => eventsTimedFmt (shiftBack2h dt) ++ " (UTC-2)"
  | .date d => dateAbbrevFmt d.year d.month d.day ++ " (All-day)"

/-- Start rendering of `calendar.py update_events_post` (lines 121-136):
there is no `'T' in start` branch, so a date-only start is parsed by
`fromisoformat` to midnight and formatted with the same clocked UTC
format string as a timed start. -/
def calendarRenderStart : EventStart → String
  | .dateTime dt => calTimedFmt dt
  | .date d => calTimedFmt ⟨d.year, d.month, d.day, 0, 0⟩

/-- Start rendering of the train cog's on-demand commands
(`manual_train_trigger`, `upcoming_trains`), which do have the `'T'` branch. -/
def trainRenderStart : EventStart → String
  | .dateTime dt => trainTimedFmt (shiftBack2h dt) ++ " (Server Time)"
  | .date d => dateAbbrevFmt d.year d.month d.day ++ " (All-day)"

/-- The raw string of a start, as the calendar API returns it and as the
snapshot file stores it. -/
def rawStart : EventStart → String
  | .date d => pad4 d.year ++ "-" ++ pad2 d.month ++ "-" ++ pad2 d.day
  | .dateTime dt =>
      pad4 dt.year ++ "-" ++ pad2 dt.month ++ "-" ++ pad2 dt.day ++ "T" ++
        pad2 dt.hour ++ ":" ++ pad2 dt.minute ++ ":00Z"

/-- Python's `sep.join(parts)`. -/
def joinWith (sep : String) : List String → String
  | [] => ""
  | [a] => a
  | a :: rest => a ++ sep ++ joinWith sep rest

/-- A persisted JSON state file as seen by a loader: missing, present but
not parseable as JSON, or present with parsed contents. -/
inductive FileState (α : Type) where
  | absent
  | malformed
  | valid (v : α)

namespace TrainSched

/-- A fetched Google Calendar item, restricted to the fields the train cog
reads: `id`, optional `summary`, optional `description`, and `start`. -/
structure TrainEvent where
  id : String
  summary : Option String
  description : Option String
  start : EventStart
deriving DecidableEq, Repr

/-- One successful `channel.send` call, tagged with its audience language,
destination channel id, and the id of the event it announces. -/
structure Send where
  lang : String
  channel : Nat
  eventId : String
  message : String
deriving DecidableEq, Repr

/-- The cog's configuration and external collaborators: the ordered
`language_channels` dict, the `TRANSLATE_TRAINS` flag, which channel ids
`bot.get_channel` resolves, which channels' `send` raises (Forbidden), and
the translation backend (already wrapped so that failures return the
visibly-marked fallback string, as `translate_text`'s except branch does). -/
structure TrainEnv where
  language_channels : List (String × Nat)
  translation_enabled : Bool
  channel_exists : Nat → Bool
  send_forbidden : Nat → Bool
  tr : String → String → String

/-- `TrainScheduleCog.translate_text`: empty or missing text translates to
the empty string, otherwise the backend result is returned. -/
def translate_text (tr : String → String → String) (text : Option String)
    (lang : String) : String :=
  match text with
  | none => ""
  | some t => if t = "" then "" else tr t lang

/-- `TrainScheduleCog.load_announced_events`: a missing file or a JSON parse
failure both yield the empty set; a parsed file yields its id list. -/
def load_announced_events : FileState (List String) → List String
  | .valid ids => ids
  | .malformed => []
  | .absent => []

/-- The message body built in the fanout loop of `check_for_upcoming_trains`
for one event and one audience language (the departure-time lines are
commented out in the source, so only the header and optional notes remain). -/
def buildMessage (env : TrainEnv) (ev : TrainEvent) (lang : String) : String :=
  let summary := ev.summary.getD "No Title"
  if lang = "en" then
    let header := "**Upcoming Train: " ++ summary ++ "**"
    let notes :=
      match ev.description with
      | some d => if d = "" then [] else ["**Notes:** " ++ d]
      | none => []
    joinWith "\n" ([header] ++ notes)
  else
    let ts := translate_text env.tr (some summary) lang
    let td := translate_text env.tr ev.description lang
    let header :=
      "**" ++ translate_text env.tr (some "Upcoming Train:") lang ++ " " ++ ts ++ "**"
    let notesHeader := "**" ++ translate_text env.tr (some "Notes:") lang ++ "**"
    let notes := if td = "" then [] else [notesHeader ++ " " ++ td]
    joinWith "\n" ([header] ++ notes)

/-- The inner `for lang, channel_id in self.language_channels.items()` loop
for one event. A missing channel or a non-English audience with translation
disabled is skipped with `continue`; `channel.send` is not wrapped in any
try/except, so a raising send aborts the loop: the Bool result records
whether the fanout raised. Sends already made before the raise stand. -/
def fanout (env : TrainEnv) (ev : TrainEvent) :
    List (String × Nat) → List Send × Bool
  | [] => ([], false)
  | (lang, cid) :: rest =>
    if env.channel_exists cid = false then fanout env ev rest
    else if lang ≠ "en" ∧ env.translation_enabled = false then fanout env ev rest
    else if env.send_forbidden cid = true then ([], true)
    else
      let p := fanout env ev rest
      (⟨lang, cid, ev.id, buildMessage env ev lang⟩ :: p.1, p.2)

structure LoopOut where
  st : List String
  sends : List Send
  ab : Bool
deriving Repr

/-- The outer `for event in events_to_announce` loop: already-announced ids
are skipped; otherwise the event is fanned out and, if no send raised, its
id is added to `announced_event_ids` before the next event is processed.
An unhandled send error aborts the loop with the id not yet added. -/
def announceLoop (env : TrainEnv) : List String → List TrainEvent → LoopOut
  | st, [] => ⟨st, [], false⟩
  | st, ev :: rest =>
    if ev.id ∈ st then announceLoop env st rest
    else
      let p := fanout env ev env.language_channels
      if p.2 then ⟨st, p.1, true⟩
      else
        let r := announceLoop env (ev.id :: st) rest
        ⟨r.st, p.1 ++ r.sends, r.ab⟩

structure TickResult where
  announced : List String
  sends : List Send
  aborted : Bool
  saved : Bool
deriving Repr

/-- One tick of `check_for_upcoming_trains`, from the state of
`announced_event_ids` and the fetch result of the one-minute window: if no
channels are configured it returns before fetching; otherwise it runs the
announce loop and then executes `if events_to_announce:
self.save_announced_events()`, which is reached only when no send raised. -/
def check_for_upcoming_trains (env : TrainEnv) (st : List String)
    (events : List TrainEvent) : TickResult :=
  if env.language_channels.isEmpty then ⟨st, [], false, false⟩
  else
    let r := announceLoop env st events
    if r.ab then ⟨r.st, r.sends, true, false⟩
    else ⟨r.st, r.sends, false, !events.isEmpty⟩

/-- A run of the `tasks.loop(minutes=1)` scheduler over successive fetch
results. An exception escaping the task body is not among
`discord.ext.tasks`' retried connection errors, so it permanently stops the
loop: a trace ends at the first aborted tick. -/
def runTicks (env : TrainEnv) :
    List String → List (List TrainEvent) → List String × List Send
  | st, [] => (st, [])
  | st, f :: fs =>
    let r := check_for_upcoming_trains env st f
    if r.aborted then (r.announced, r.sends)
    else
      let p := runTicks env r.announced fs
      (p.1, r.sends ++ p.2)

/-- Number of sends delivered for a given event id to a given audience
language. -/
def countFor (sends : List Send) (eid lang : String) : Nat :=
  (sends.filter (fun s => s.eventId == eid && s.lang == lang)).length

/-- The per-event block of the on-demand listings (`manual_train_trigger`
and `upcoming_trains` format events identically). -/
def trainEventDetails (ev : TrainEvent) : String :=
  let summary := ev.summary.getD "No Title"
  let sf := trainRenderStart ev.start
  let parts := ["🚂 **" ++ summary ++ "**", "**Departure:** " ++ sf]
  let parts :=
    match ev.description with
    | some d => if d = "" then parts else parts ++ ["**Notes:** " ++ d]
    | none => parts
  joinWith "\n" parts

/-- Result of an on-demand command: the resulting in-memory announced set,
whether the announced-events file was written, and the posted listing. -/
structure CommandResult where
  announced : List String
  saved : Bool
  posted : Option String
deriving Repr

def manualTriggerParts (events : List TrainEvent) : List String :=
  ["**Train Departures for the Next 24 Hours**", "---------------------------------"] ++
    (if events.isEmpty then ["No upcoming train departures found in the next 24 hours."]
     else events.map trainEventDetails)

/-- `manual_train_trigger`: posts the 24-hour listing to the first
configured channel. It never reads or writes `announced_event_ids` and
never calls `save_announced_events`. -/
def manual_train_trigger (env : TrainEnv) (st : List String)
    (events : List TrainEvent) : CommandResult :=
  match env.language_channels with
  | [] => ⟨st, false, none⟩
  | (_, cid) :: _ =>
    if env.channel_exists cid = false then ⟨st, false, none⟩
    else ⟨st, false, some (joinWith "\n\n" (manualTriggerParts events))⟩

def upcomingTrainsParts (events : List TrainEvent) : List String :=
  ["**Your Train Schedule for the Next 3 Days**",
   "------------------------------------------"] ++ events.map trainEventDetails

/-- `upcoming_trains`: sends the 3-day listing privately. It never reads or
writes `announced_event_ids` and never calls `save_announced_events`. -/
def upcoming_trains (env : TrainEnv) (st : List String)
    (events : List TrainEvent) : CommandResult :=
  if events.isEmpty then ⟨st, false, none⟩
  else ⟨st, false, some (joinWith "\n\n" (upcomingTrainsParts events))⟩

end TrainSched

namespace EventsCog

/-- A fetched Google Calendar item, restricted to the fields the events and
calendar cogs read in `update_events_post`. -/
structure CalEvent where
  id : String
  summary : Option String
  location : Option String
  htmlLink : Option String
  start : EventStart
deriving DecidableEq, Repr

/-- `EventsCog.load_previous_events`: there is no try/except around
`json.load`, so a malformed file propagates the JSON parse error out of the
loader; a missing file yields the empty snapshot. -/
def load_previous_events :
    FileState (List (String × String)) → Except Unit (List (String × String))
  | .valid m => .ok m
  | .malformed => .error ()
  | .absent => .ok []

/-- Display titles of the current fetch, with the `'No Title'` default. -/
def titlesOf (current : List CalEvent) : List String :=
  current.map (fun e => e.summary.getD "No Title")

/-- The embed field name for a current event:
`f"{summary} {'(NEW)' if is_new else ''}"`, where
`is_new = event['id'] not in self.previous_events` tests the id against the
keys of the previous snapshot dict — and those keys are titles. -/
def eventFieldName (prev : List (String × String)) (ev : CalEvent) : String :=
  let summary := ev.summary.getD "No Title"
  let tag := if (prev.map Prod.fst).contains ev.id then "" else "(NEW)"
  summary ++ " " ++ tag

/-- The embed field value for a current event. -/
def eventFieldValue (ev : CalEvent) : String :=
  "**Start:** " ++ eventsRenderStart ev.start ++ "\n**Location:** " ++
    ev.location.getD "No Location" ++ "\n**Link:** " ++ ev.htmlLink.getD "N/A"

/-- One struck-through "(Ended)" embed field, from a previous-snapshot
entry whose title is gone from the current fetch. -/
def strikeRender (p : String × String) : String × String :=
  ("~~" ++ p.1 ++ "~~ (Ended)", "~~**Start:** " ++ p.2 ++ "~~")

/-- The `strikethrough_events` comprehension followed by its rendering
loop: previous entries whose title is absent from the current titles. -/
def strikeOf (prev : List (String × String)) (current : List CalEvent) :
    List (String × String) :=
  (prev.filter (fun p => !(titlesOf current).contains p.1)).map strikeRender

/-- Python dict insert: overwrite an existing key in place, else append. -/
def insertKV (m : List (String × String)) (k v : String) :
    List (String × String) :=
  if (m.map Prod.fst).contains k then
    m.map (fun p => if p.1 = k then (k, v) else p)
  else m ++ [(k, v)]

/-- The dict comprehension
`{e.get('summary', 'No Title'): e['start'].get('dateTime', e['start'].get('date')) for e in current_events}`. -/
def snapshotOf (current : List CalEvent) : List (String × String) :=
  current.foldl (fun m ev => insertKV m (ev.summary.getD "No Title") (rawStart ev.start)) []

structure ReconResult where
  fields : List (String × String)
  snapshot : List (String × String)
  saved : Bool
deriving Repr

/-- The reconciliation core of `events.py update_events_post`: the embed
fields for the current events (in fetch order), then the struck-through
ended entries; the snapshot is rebuilt wholesale from the current fetch and
`save_previous_events` is called unconditionally. -/
def update_events_post (prev : List (String × String))
    (current : List CalEvent) : ReconResult :=
  ⟨current.map (fun ev => (eventFieldName prev ev, eventFieldValue ev)) ++
      strikeOf prev current,
    snapshotOf current, true⟩

end EventsCog

namespace CalendarCog

/-- `CalendarCog.load_previous_events` is byte-for-byte the events cog's
loader: no try/except, so a malformed snapshot file propagates the parse
error. -/
def load_previous_events :
    FileState (List (String × String)) → Except Unit (List (String × String))
  | .valid m => .ok m
  | .malformed => .error ()
  | .absent => .ok []

end CalendarCog

namespace Examples

open TrainSched EventsCog

/-- A minimal healthy configuration: one English channel, translation off,
every channel resolvable, no send failures, identity translation backend. -/
def envS : TrainEnv := ⟨[("en", 1)], false, fun _ => true, fun _ => false, fun t _ => t⟩

/-- Two audiences with translation enabled, where sending to the English
channel (id 1) raises Forbidden. -/
def envF : TrainEnv :=
  ⟨[("en", 1), ("zh-TW", 2)], true, fun _ => true, fun c => c == 1, fun t _ => t⟩

/-- A single audience whose channel send raises Forbidden. -/
def envF5 : TrainEnv := ⟨[("en", 1)], false, fun _ => true, fun _ => true, fun t _ => t⟩

/-- Two audiences, translation disabled. -/
def envT : TrainEnv :=
  ⟨[("en", 1), ("es", 3)], false, fun _ => true, fun _ => false, fun t _ => t⟩

/-- Two audiences with translation enabled; the Spanish destination (id 2)
cannot be resolved by `bot.get_channel`. -/
def envMD : TrainEnv :=
  ⟨[("en", 1), ("es", 2)], true, fun c => c == 1, fun _ => false, fun t _ => t⟩

/-- One audience whose destination cannot be resolved at all. -/
def envM : TrainEnv := ⟨[("en", 1)], false, fun _ => false, fun _ => false, fun t _ => t⟩

/-- The scenario event of the spec: id `e1`, summary `Kickoff`. -/
def evE1 : TrainEvent := ⟨"e1", some "Kickoff", none, .dateTime ⟨2026, 1, 5, 10, 0⟩⟩

/-- A reconciliation event with id `A` and title `Standup`. -/
def evA : CalEvent := ⟨"A", some "Standup", none, none, .date ⟨2026, 1, 5⟩⟩

end Examples

theorem natDigitsAux_digits (fuel : Nat) :
    ∀ n c, c ∈ natDigitsAux fuel n → c.isDigit = true := by
  induction fuel with
  | zero => intro n c h; simp [natDigitsAux] at h
  | succ f ih =>
    intro n c h
    simp only [natDigitsAux] at h
    split at h
    · next hlt =>
      simp only [List.mem_singleton] at h
      subst h
      interval_cases n <;> decide
    · next hge =>
      rcases List.mem_append.mp h with h1 | h2
      · exact ih _ _ h1
      · simp only [List.mem_singleton] at h2
        subst h2
        have hb : n % 10 < 10 := Nat.mod_lt _ (by omega)
        revert hb
        generalize n % 10 = k
        intro hb
        interval_cases k <;> decide

theorem natStr_noColon (n : Nat) : ':' ∉ (natStr n).data := by
  intro h
  have hd := natDigitsAux_digits (n + 1) n ':' h
  exact absurd hd (by decide)

theorem pad2_noColon (n : Nat) : ':' ∉ (pad2 n).data := by
  unfold pad2
  split
  · intro h
    rw [String.data_append] at h
    rcases List.mem_append.mp h with h | h
    · exact absurd h (by decide)
    · exact natStr_noColon n h
  · exact natStr_noColon n

theorem weekdayName_noColon (w : Nat) : ':' ∉ (weekdayName w).data := by
  match w with
  | 0 => decide
  | 1 => decide
  | 2 => decide
  | 3 => decide
  | 4 => decide
  | 5 => decide
  | n + 6 =>
    show ':' ∉ ("Saturday" : String).data
    decide

theorem monthAbbrev_noColon (m : Nat) : ':' ∉ (monthAbbrev m).data := by
  match m with
  | 0 => decide
  | 1 => decide
  | 2 => decide
  | 3 => decide
  | 4 => decide
  | 5 => decide
  | 6 => decide
  | 7 => decide
  | 8 => decide
  | 9 => decide
  | 10 => decide
  | 11 => decide
  | 12 => decide
  | n + 13 =>
    show ':' ∉ ("" : String).data
    decide

theorem dateAbbrevFmt_noColon (y m d : Nat) : ':' ∉ (dateAbbrevFmt y m d).data := by
  unfold dateAbbrevFmt
  intro h
  simp only [String.data_append, List.mem_append] at h
  rcases h with (((h | h) | h) | h) | h
  · exact weekdayName_noColon _ h
  · exact absurd h (by decide)
  · exact monthAbbrev_noColon _ h
  · exact absurd h (by decide)
  · exact pad2_noColon _ h

theorem shiftBack2h_minutes (dt : CivilDateTime) (hh : dt.hour < 24)
    (hm : dt.minute < 60) :
    minutesOfDay (shiftBack2h dt) = (minutesOfDay dt + 1320) % 1440 ∧
    minutesOfDay (shiftBack2h dt) ≠ minutesOfDay dt := by
  unfold shiftBack2h minutesOfDay
  split
  · dsimp only
    constructor <;> omega
  · dsimp only
    constructor <;> omega

theorem str_append_cancel_left {a b c : String} (h : a ++ b = a ++ c) : b = c := by
  apply String.ext
  have hd := congrArg String.data h
  rw [String.data_append, String.data_append] at hd
  exact List.append_cancel_left hd

theorem str_append_cancel_right {a b c : String} (h : a ++ c = b ++ c) : a = b := by
  apply String.ext
  have hd := congrArg String.data h
  rw [String.data_append, String.data_append] at hd
  exact List.append_cancel_right hd

namespace EventsCog

theorem strikeRender_inj : Function.Injective strikeRender := by
  intro p q h
  simp only [strikeRender, Prod.mk.injEq] at h
  obtain ⟨h1, h2⟩ := h
  have e1 : p.1 = q.1 := str_append_cancel_left (str_append_cancel_right h1)
  have e2 : p.2 = q.2 := str_append_cancel_left (str_append_cancel_right h2)
  exact Prod.ext e1 e2

theorem contains_iff_mem (l : List String) (a : String) :
    l.contains a = true ↔ a ∈ l := by
  simp [List.contains]

theorem count_one_of_nodup_mem {α : Type} [BEq α] [LawfulBEq α] (l : List α) (x : α)
    (hnd : l.Nodup) (hm : x ∈ l) : l.count x = 1 := by
  induction l with
  | nil => cases hm
  | cons a l ih =>
    rcases List.mem_cons.mp hm with rfl | hx
    · have h0 : l.count x = 0 :=
        List.count_eq_zero_of_not_mem (List.nodup_cons.mp hnd).1
      rw [List.count_cons, h0, if_pos (beq_self_eq_true x)]
    · have hne : ¬(a == x) = true := by
        intro hb
        have hax : a = x := eq_of_beq hb
        subst hax
        exact (List.nodup_cons.mp hnd).1 hx
      rw [List.count_cons, if_neg hne, ih (List.nodup_cons.mp hnd).2 hx]

theorem count_map_strikeRender (l : List (String × String)) (x : String × String) :
    (l.map strikeRender).count (strikeRender x) = l.count x := by
  induction l with
  | nil => rfl
  | cons a l ih =>
    rw [List.map_cons, List.count_cons, List.count_cons, ih]
    by_cases h : a = x
    · subst h
      rw [if_pos (beq_self_eq_true a), if_pos (beq_self_eq_true (strikeRender a))]
    · have h1 : ¬(a == x) = true := by
        intro hb; exact h (eq_of_beq hb)
      have h2 : ¬(strikeRender a == strikeRender x) = true := by
        intro hb; exact h (strikeRender_inj (eq_of_beq hb))
      rw [if_neg h1, if_neg h2]

theorem strikeOf_count (prev : List (String × String)) (current : List CalEvent)
    (hnd : (prev.map Prod.fst).Nodup) (t s : String)
    (hmem : (t, s) ∈ prev) (habs : t ∉ titlesOf current) :
    (strikeOf prev current).count (strikeRender (t, s)) = 1 := by
  unfold strikeOf
  rw [count_map_strikeRender]
  have hp : (fun p : String × String => !(titlesOf current).contains p.1) (t, s) = true := by
    simp only [Bool.not_eq_true']
    rw [Bool.eq_false_iff]
    intro hc
    exact habs ((contains_iff_mem _ _).mp hc)
  rw [@List.count_filter (String × String) _ _
    (fun p => !(titlesOf current).contains p.1) (t, s) prev hp]
  exact count_one_of_nodup_mem prev (t, s) (List.Nodup.of_map Prod.fst hnd) hmem

theorem strikeOf_not_mem (prev : List (String × String)) (current : List CalEvent)
    (t s : String) (hpres : t ∈ titlesOf current) :
    strikeRender (t, s) ∉ strikeOf prev current := by
  intro h
  unfold strikeOf at h
  rcases List.mem_map.mp h with ⟨p, hpmem, hpeq⟩
  have : p = (t, s) := strikeRender_inj hpeq
  subst this
  rcases List.mem_filter.mp hpmem with ⟨_, hpred⟩
  simp only [Bool.not_eq_true'] at hpred
  rw [Bool.eq_false_iff] at hpred
  exact hpred ((contains_iff_mem _ _).mpr hpres)

theorem eventFieldName_new_iff (prev : List (String × String)) (ev : CalEvent) :
    eventFieldName prev ev = (ev.summary.getD "No Title") ++ " (NEW)" ↔
      ev.id ∉ prev.map Prod.fst := by
  have hname : eventFieldName prev ev = (ev.summary.getD "No Title") ++ " " ++
      (if (prev.map Prod.fst).contains ev.id then "" else "(NEW)") := rfl
  cases hc : (prev.map Prod.fst).contains ev.id with
  | true =>
    rw [hname, hc]
    constructor
    · intro h
      exfalso
      have h2 : (ev.summary.getD "No Title") ++ " " ++ "" =
          (ev.summary.getD "No Title") ++ " (NEW)" := h
      have hl := congrArg String.length h2
      simp only [String.length_append] at hl
      have e1 : ("" : String).length = 0 := rfl
      have e2 : (" " : String).length = 1 := rfl
      have e3 : (" (NEW)" : String).length = 6 := rfl
      rw [e1, e2, e3] at hl
      omega
    · intro h
      exact absurd ((contains_iff_mem _ _).mp hc) h
  | false =>
    rw [hname, hc]
    constructor
    · intro _
      intro hmem
      have hne : (prev.map Prod.fst).contains ev.id ≠ true := by
        rw [hc]; simp
      exact hne ((contains_iff_mem _ _).mpr hmem)
    · intro _
      apply String.ext
      simp only [String.data_append, List.append_assoc]
      rfl

end EventsCog

namespace TrainSched

theorem countFor_nil (eid lang : String) : countFor [] eid lang = 0 := rfl

theorem countFor_cons (s : Send) (ss : List Send) (eid lang : String) :
    countFor (s :: ss) eid lang =
      (if s.eventId == eid && s.lang == lang then 1 else 0) + countFor ss eid lang := by
  simp only [countFor, List.filter_cons]
  split
  · rw [List.length_cons]; omega
  · omega

theorem countFor_append (a b : List Send) (eid lang : String) :
    countFor (a ++ b) eid lang = countFor a eid lang + countFor b eid lang := by
  simp [countFor, List.filter_append]

theorem countFor_eq_zero (ss : List Send) (eid lang : String)
    (h : ∀ s ∈ ss, s.eventId ≠ eid) : countFor ss eid lang = 0 := by
  induction ss with
  | nil => rfl
  | cons s ss ih =>
    rw [countFor_cons]
    have hs : ¬(s.eventId == eid && s.lang == lang) = true := by
      intro hb
      rcases Bool.and_eq_true_iff.mp hb with ⟨h1, _⟩
      exact h s (List.mem_cons_self s ss) (eq_of_beq h1)
    rw [if_neg hs, ih (fun t ht => h t (List.mem_cons_of_mem s ht))]

theorem fanout_eventId (env : TrainEnv) (ev : TrainEvent) :
    ∀ (ch : List (String × Nat)) (s : Send),
      s ∈ (fanout env ev ch).1 → s.eventId = ev.id := by
  intro ch
  induction ch with
  | nil => intro s h; simp [fanout] at h
  | cons a rest ih =>
    intro s h
    obtain ⟨lang, cid⟩ := a
    simp only [fanout] at h
    split at h
    · exact ih s h
    · split at h
      · exact ih s h
      · split at h
        · simp at h
        · rcases List.mem_cons.mp h with h | h
          · subst h; rfl
          · exact ih s h

theorem fanout_count_le (env : TrainEnv) (ev : TrainEvent) (eid lang : String) :
    ∀ ch : List (String × Nat),
      countFor (fanout env ev ch).1 eid lang ≤ (ch.map Prod.fst).count lang := by
  intro ch
  induction ch with
  | nil => simp [fanout, countFor]
  | cons a rest ih =>
    obtain ⟨l, c⟩ := a
    have hcc : ((l, c) :: rest).map Prod.fst = l :: rest.map Prod.fst := rfl
    rw [hcc, List.count_cons]
    simp only [fanout]
    split
    · split <;> omega
    · split
      · split <;> omega
      · split
        · simp only [countFor_nil]; omega
        · rw [countFor_cons]
          split
          · next hb =>
            rcases Bool.and_eq_true_iff.mp hb with ⟨_, h2⟩
            rw [if_pos h2]
            omega
          · split <;> omega

theorem fanout_count_le_one (env : TrainEnv) (ev : TrainEvent) (eid lang : String)
    (ch : List (String × Nat)) (hnd : (ch.map Prod.fst).Nodup) :
    countFor (fanout env ev ch).1 eid lang ≤ 1 :=
  le_trans (fanout_count_le env ev eid lang ch)
    (List.nodup_iff_count_le_one.mp hnd lang)

theorem fanout_noabort (env : TrainEnv) (ev : TrainEvent)
    (hnf : ∀ c, env.send_forbidden c = false) :
    ∀ ch : List (String × Nat), (fanout env ev ch).2 = false := by
  intro ch
  induction ch with
  | nil => rfl
  | cons a rest ih =>
    obtain ⟨l, c⟩ := a
    simp only [fanout]
    split
    · exact ih
    · split
      · exact ih
      · split
        · next hb => rw [hnf c] at hb; cases hb
        · exact ih

theorem fanout_sends_conds (env : TrainEnv) (ev : TrainEvent) :
    ∀ (ch : List (String × Nat)) (s : Send), s ∈ (fanout env ev ch).1 →
      env.channel_exists s.channel = true ∧
      (s.lang = "en" ∨ env.translation_enabled = true) ∧
      (s.lang, s.channel) ∈ ch ∧
      s.message = buildMessage env ev s.lang := by
  intro ch
  induction ch with
  | nil => intro s h; simp [fanout] at h
  | cons a rest ih =>
    intro s h
    obtain ⟨l, c⟩ := a
    simp only [fanout] at h
    split at h
    · obtain ⟨h1, h2, h3, h4⟩ := ih s h
      exact ⟨h1, h2, List.mem_cons_of_mem _ h3, h4⟩
    · split at h
      · obtain ⟨h1, h2, h3, h4⟩ := ih s h
        exact ⟨h1, h2, List.mem_cons_of_mem _ h3, h4⟩
      · split at h
        · simp at h
        · rcases List.mem_cons.mp h with hh | hh
          · subst hh
            rename_i hex hlg hfb
            refine ⟨?_, ?_, List.mem_cons_self _ _, rfl⟩
            · cases hcb : env.channel_exists c
              · exact absurd hcb hex
              · rfl
            · by_cases hl : l = "en"
              · exact Or.inl hl
              · cases henb : env.translation_enabled
                · exact absurd ⟨hl, henb⟩ hlg
                · exact Or.inr rfl
          · obtain ⟨h1, h2, h3, h4⟩ := ih s hh
            exact ⟨h1, h2, List.mem_cons_of_mem _ h3, h4⟩

theorem fanout_mem_of (env : TrainEnv) (ev : TrainEvent) (lang : String) (cid : Nat)
    (hnf : ∀ c, env.send_forbidden c = false) :
    ∀ ch : List (String × Nat), (lang, cid) ∈ ch →
      env.channel_exists cid = true →
      (lang = "en" ∨ env.translation_enabled = true) →
      (⟨lang, cid, ev.id, buildMessage env ev lang⟩ : Send) ∈ (fanout env ev ch).1 := by
  intro ch
  induction ch with
  | nil => intro h; cases h
  | cons a rest ih =>
    intro hmem hex hok
    obtain ⟨l, c⟩ := a
    rcases List.mem_cons.mp hmem with heq | htail
    · injection heq with e1 e2
      subst e1
      subst e2
      have h1 : ¬(env.channel_exists cid = false) := by rw [hex]; simp
      have h2 : ¬(lang ≠ "en" ∧ env.translation_enabled = false) := by
        rcases hok with hl | ht
        · exact fun hh => hh.1 hl
        · intro hh
          rw [ht] at hh
          exact absurd hh.2 (by simp)
      have h3 : ¬(env.send_forbidden cid = true) := by rw [hnf cid]; simp
      show _ ∈ (if env.channel_exists cid = false then fanout env ev rest
        else if lang ≠ "en" ∧ env.translation_enabled = false then fanout env ev rest
        else if env.send_forbidden cid = true then ([], true)
        else (⟨lang, cid, ev.id, buildMessage env ev lang⟩ :: (fanout env ev rest).1,
          (fanout env ev rest).2)).1
      rw [if_neg h1, if_neg h2, if_neg h3]
      exact List.mem_cons_self _ _
    · simp only [fanout]
      split
      · exact ih htail hex hok
      · split
        · exact ih htail hex hok
        · split
          · rename_i hfb
            rw [hnf c] at hfb
            cases hfb
          · exact List.mem_cons_of_mem _ (ih htail hex hok)

theorem announceLoop_mono (env : TrainEnv) :
    ∀ (evs : List TrainEvent) (st : List String) (x : String),
      x ∈ st → x ∈ (announceLoop env st evs).st := by
  intro evs
  induction evs with
  | nil => intro st x hx; exact hx
  | cons ev rest ih =>
    intro st x hx
    simp only [announceLoop]
    split
    · exact ih st x hx
    · split
      · exact hx
      · exact ih (ev.id :: st) x (List.mem_cons_of_mem _ hx)

theorem announceLoop_skip (env : TrainEnv) (eid lang : String) :
    ∀ (evs : List TrainEvent) (st : List String), eid ∈ st →
      countFor (announceLoop env st evs).sends eid lang = 0 := by
  intro evs
  induction evs with
  | nil => intro st hst; rfl
  | cons ev rest ih =>
    intro st hst
    simp only [announceLoop]
    split
    · exact ih st hst
    · next hid =>
      have hne : ∀ s ∈ (fanout env ev env.language_channels).1, s.eventId ≠ eid := by
        intro s hs
        rw [fanout_eventId env ev _ s hs]
        intro hcontra
        subst hcontra
        exact hid hst
      split
      · exact countFor_eq_zero _ _ _ hne
      · rw [countFor_append, countFor_eq_zero _ _ _ hne,
          ih (ev.id :: st) (List.mem_cons_of_mem _ hst)]

theorem announceLoop_count (env : TrainEnv) (eid lang : String)
    (hnd : (env.language_channels.map Prod.fst).Nodup) :
    ∀ (evs : List TrainEvent) (st : List String),
      countFor (announceLoop env st evs).sends eid lang ≤ 1 ∧
      ((announceLoop env st evs).ab = false →
        1 ≤ countFor (announceLoop env st evs).sends eid lang →
        eid ∈ (announceLoop env st evs).st) := by
  intro evs
  induction evs with
  | nil =>
    intro st
    exact ⟨Nat.zero_le 1, fun _ h => absurd h (by simp [announceLoop, countFor_nil])⟩
  | cons ev rest ih =>
    intro st
    simp only [announceLoop]
    split
    · exact ih st
    · next hid =>
      split
      · exact ⟨fanout_count_le_one env ev eid lang _ hnd, fun hab => by cases hab⟩
      · by_cases he : ev.id = eid
        · subst he
          have hz : countFor (announceLoop env (ev.id :: st) rest).sends ev.id lang = 0 :=
            announceLoop_skip env ev.id lang rest (ev.id :: st) (List.mem_cons_self _ _)
          constructor
          · rw [countFor_append, hz]
            have := fanout_count_le_one env ev ev.id lang env.language_channels hnd
            omega
          · intro _ _
            exact announceLoop_mono env rest (ev.id :: st) ev.id (List.mem_cons_self _ _)
        · have hz : countFor (fanout env ev env.language_channels).1 eid lang = 0 := by
            apply countFor_eq_zero
            intro s hs
            rw [fanout_eventId env ev _ s hs]
            exact he
          constructor
          · rw [countFor_append, hz]
            simpa using (ih (ev.id :: st)).1
          · intro hab hcnt
            rw [countFor_append, hz] at hcnt
            exact (ih (ev.id :: st)).2 hab (by omega)

theorem bool_eq_false {b : Bool} (h : ¬ b = true) : b = false := by
  cases b
  · rfl
  · exact absurd rfl h

theorem announceLoop_marks (env : TrainEnv) :
    ∀ (evs : List TrainEvent) (st : List String),
      (announceLoop env st evs).ab = false →
      ∀ ev ∈ evs, ev.id ∈ (announceLoop env st evs).st := by
  intro evs
  induction evs with
  | nil => intro st _ ev hev; cases hev
  | cons e rest ih =>
    intro st hab ev hev
    simp only [announceLoop] at hab ⊢
    by_cases hin : e.id ∈ st
    · rw [if_pos hin] at hab ⊢
      rcases List.mem_cons.mp hev with rfl | hm
      · exact announceLoop_mono env rest st ev.id hin
      · exact ih st hab ev hm
    · rw [if_neg hin] at hab ⊢
      cases hfb : (fanout env e env.language_channels).2 with
      | true =>
        rw [hfb] at hab
        simp at hab
      | false =>
        rw [hfb] at hab
        have hab2 : (announceLoop env (e.id :: st) rest).ab = false := by
          simpa using hab
        rcases List.mem_cons.mp hev with rfl | hm
        · exact announceLoop_mono env rest (ev.id :: st) ev.id (List.mem_cons_self _ _)
        · exact ih (e.id :: st) hab2 ev hm

theorem announceLoop_all_skip (env : TrainEnv) :
    ∀ (evs : List TrainEvent) (st : List String),
      (∀ ev ∈ evs, ev.id ∈ st) →
      (announceLoop env st evs).sends = [] ∧ (announceLoop env st evs).ab = false ∧
      (announceLoop env st evs).st = st := by
  intro evs
  induction evs with
  | nil => intro st _; exact ⟨rfl, rfl, rfl⟩
  | cons ev rest ih =>
    intro st hall
    simp only [announceLoop]
    split
    · exact ih st (fun e he => hall e (List.mem_cons_of_mem _ he))
    · next hid => exact absurd (hall ev (List.mem_cons_self _ _)) hid

theorem announceLoop_noabort (env : TrainEnv)
    (hnf : ∀ c, env.send_forbidden c = false) :
    ∀ (evs : List TrainEvent) (st : List String),
      (announceLoop env st evs).ab = false := by
  intro evs
  induction evs with
  | nil => intro st; rfl
  | cons ev rest ih =>
    intro st
    simp only [announceLoop]
    split
    · exact ih st
    · split
      · next hfb =>
        rw [fanout_noabort env ev hnf env.language_channels] at hfb
        cases hfb
      · exact ih (ev.id :: st)

theorem tick_eq_of_nochannels (env : TrainEnv) (st : List String)
    (f : List TrainEvent) (hch : env.language_channels.isEmpty = true) :
    check_for_upcoming_trains env st f = ⟨st, [], false, false⟩ := by
  simp [check_for_upcoming_trains, hch]

theorem tick_eq_of_channels (env : TrainEnv) (st : List String)
    (f : List TrainEvent) (hch : env.language_channels.isEmpty = false) :
    check_for_upcoming_trains env st f =
      if (announceLoop env st f).ab then
        ⟨(announceLoop env st f).st, (announceLoop env st f).sends, true, false⟩
      else ⟨(announceLoop env st f).st, (announceLoop env st f).sends, false,
        !f.isEmpty⟩ := by
  simp only [check_for_upcoming_trains, hch, Bool.false_eq_true, if_false]

theorem tick_skip (env : TrainEnv) (eid lang : String) (st : List String)
    (f : List TrainEvent) (h : eid ∈ st) :
    countFor (check_for_upcoming_trains env st f).sends eid lang = 0 ∧
    eid ∈ (check_for_upcoming_trains env st f).announced := by
  cases hch : env.language_channels.isEmpty with
  | true =>
    rw [tick_eq_of_nochannels env st f hch]
    exact ⟨rfl, h⟩
  | false =>
    rw [tick_eq_of_channels env st f hch]
    cases habl : (announceLoop env st f).ab
    · rw [if_neg (by simp)]
      exact ⟨announceLoop_skip env eid lang f st h, announceLoop_mono env f st eid h⟩
    · rw [if_pos rfl]
      exact ⟨announceLoop_skip env eid lang f st h, announceLoop_mono env f st eid h⟩

theorem tick_count (env : TrainEnv) (eid lang : String) (st : List String)
    (f : List TrainEvent)
    (hnd : (env.language_channels.map Prod.fst).Nodup) :
    countFor (check_for_upcoming_trains env st f).sends eid lang ≤ 1 ∧
    ((check_for_upcoming_trains env st f).aborted = false →
      1 ≤ countFor (check_for_upcoming_trains env st f).sends eid lang →
      eid ∈ (check_for_upcoming_trains env st f).announced) := by
  cases hch : env.language_channels.isEmpty with
  | true =>
    rw [tick_eq_of_nochannels env st f hch]
    exact ⟨Nat.zero_le 1, fun _ hge => absurd (show (1 : Nat) ≤ 0 from hge) (by omega)⟩
  | false =>
    rw [tick_eq_of_channels env st f hch]
    cases habl : (announceLoop env st f).ab
    · rw [if_neg (by simp)]
      refine ⟨(announceLoop_count env eid lang hnd f st).1, fun _ hge => ?_⟩
      exact (announceLoop_count env eid lang hnd f st).2 habl hge
    · rw [if_pos rfl]
      exact ⟨(announceLoop_count env eid lang hnd f st).1,
        fun hab => absurd hab (by simp)⟩

theorem tick_marks (env : TrainEnv) (st : List String) (f : List TrainEvent)
    (hab : (check_for_upcoming_trains env st f).aborted = false)
    (hch : env.language_channels.isEmpty = false) :
    ∀ ev ∈ f, ev.id ∈ (check_for_upcoming_trains env st f).announced := by
  intro ev hev
  rw [tick_eq_of_channels env st f hch] at hab ⊢
  cases habl : (announceLoop env st f).ab with
  | true =>
    rw [habl] at hab
    simp at hab
  | false =>
    exact announceLoop_marks env f st habl ev hev

theorem tick_second_zero (env : TrainEnv) (st : List String) (f : List TrainEvent)
    (hab : (check_for_upcoming_trains env st f).aborted = false) :
    (check_for_upcoming_trains env
      (check_for_upcoming_trains env st f).announced f).sends = [] := by
  cases hch : env.language_channels.isEmpty with
  | true =>
    rw [tick_eq_of_nochannels env _ f hch]
  | false =>
    have hmarks := tick_marks env st f hab hch
    have hall := announceLoop_all_skip env f
      (check_for_upcoming_trains env st f).announced hmarks
    rw [tick_eq_of_channels env _ f hch, hall.2.1, if_neg (by simp)]
    exact hall.1

theorem runTicks_skip (env : TrainEnv) (eid lang : String) :
    ∀ (fs : List (List TrainEvent)) (st : List String), eid ∈ st →
      countFor (runTicks env st fs).2 eid lang = 0 := by
  intro fs
  induction fs with
  | nil => intro st _; rfl
  | cons f rest ih =>
    intro st hst
    simp only [runTicks]
    obtain ⟨hz, hmem⟩ := tick_skip env eid lang st f hst
    split
    · exact hz
    · rw [countFor_append, hz, ih _ hmem]

theorem runTicks_count (env : TrainEnv) (eid lang : String)
    (hnd : (env.language_channels.map Prod.fst).Nodup) :
    ∀ (fs : List (List TrainEvent)) (st : List String),
      countFor (runTicks env st fs).2 eid lang ≤ 1 := by
  intro fs
  induction fs with
  | nil => intro st; exact Nat.zero_le 1
  | cons f rest ih =>
    intro st
    simp only [runTicks]
    obtain ⟨hle, himp⟩ := tick_count env eid lang st f hnd
    split
    · exact hle
    · next haborted =>
      rw [countFor_append]
      by_cases hpos : 1 ≤ countFor (check_for_upcoming_trains env st f).sends eid lang
      · have hmem := himp (bool_eq_false haborted) hpos
        rw [runTicks_skip env eid lang rest _ hmem]
        omega
      · have := ih (check_for_upcoming_trains env st f).announced
        omega

end TrainSched

open TrainSched EventsCog Examples

/-- C1: for a fixed event id, across any number of announcement ticks whose
fetch results contain that id, a message for that event is sent to a given
audience at most once per process lifetime (an unhandled send error stops
the task loop, ending the trace); a tick that completes without an abort
records every fetched id, and a second tick on the identical fetch result
after a completed tick produces zero additional sends. -/
theorem train_announce_at_most_once (env : TrainEnv) (st0 : List String)
    (fetches : List (List TrainEvent)) (eid lang : String)
    (hnd : (env.language_channels.map Prod.fst).Nodup) :
    countFor (runTicks env st0 fetches).2 eid lang ≤ 1
    ∧ (∀ (st : List String) (f : List TrainEvent),
        (check_for_upcoming_trains env st f).aborted = false →
        (check_for_upcoming_trains env
          (check_for_upcoming_trains env st f).announced f).sends = [])
    ∧ (∀ (st : List String) (f : List TrainEvent) (ev : TrainEvent),
        (check_for_upcoming_trains env st f).aborted = false →
        ev ∈ f → env.language_channels.isEmpty = false →
        ev.id ∈ (check_for_upcoming_trains env st f).announced) :=
  ⟨runTicks_count env eid lang hnd fetches st0,
   fun st f hab => tick_second_zero env st f hab,
   fun st f ev hab hev hch => tick_marks env st f hab hch ev hev⟩

/-- C1 witness: on the spec's scenario (fresh state, two ticks whose fetch
both contain `e1`, one healthy English audience), `e1` is delivered to the
English audience at most once over the whole run. -/
theorem train_announce_at_most_once_holds :
    countFor (runTicks envS [] [[evE1], [evE1]]).2 "e1" "en" ≤ 1 :=
  (train_announce_at_most_once envS [] [[evE1], [evE1]] "e1" "en" (by decide)).1

/-- C2 counterexample: the previous snapshot is keyed by title, not id. A
second reconciliation of the same fetch `[{id := "A", summary := "Standup"}]`
still renders the event as `(NEW)` even though id `A` was present in the
fetch that produced the previous snapshot, contradicting "new iff its id is
absent from the set of previously-seen event ids". -/
theorem recon_new_uses_title_keys_counterexample :
    evA.id ∈ [evA].map CalEvent.id ∧
    (update_events_post (snapshotOf [evA]) [evA]).fields.map Prod.fst =
      ["Standup (NEW)"] :=
  ⟨by decide, by decide⟩

/-- C2 (amended): an event of the current fetch is rendered once, and it
carries the `(NEW)` tag iff its id is absent from the key set of the
previous snapshot — whose keys are the titles of the prior fetch, not ids. -/
theorem recon_new_iff_absent_title_key (prev : List (String × String))
    (current : List CalEvent) :
    (update_events_post prev current).fields =
      current.map (fun ev => (eventFieldName prev ev, eventFieldValue ev)) ++
        strikeOf prev current
    ∧ ∀ ev : CalEvent,
      (eventFieldName prev ev = (ev.summary.getD "No Title") ++ " (NEW)" ↔
        ev.id ∉ prev.map Prod.fst) :=
  ⟨rfl, fun ev => eventFieldName_new_iff prev ev⟩

/-- C3 counterexample: a tick whose only fetched candidate is already
announced sends nothing new, yet the announced-events file is still saved,
because the source guards persistence with `if events_to_announce:` (fetch
nonempty), not with "at least one new id was announced". -/
theorem train_save_on_stale_fetch_counterexample :
    evE1.id ∈ ["e1"] ∧
    (check_for_upcoming_trains envS ["e1"] [evE1]).sends = [] ∧
    (check_for_upcoming_trains envS ["e1"] [evE1]).saved = true :=
  ⟨by decide, by decide, by decide⟩

/-- C3 (amended): the AnnouncedSet file is written on a tick iff channels
are configured, no send raised, and the fetch result is nonempty —
regardless of whether any fetched id was new. -/
theorem train_save_iff_fetch_nonempty (env : TrainEnv) (st : List String)
    (evs : List TrainEvent) :
    (check_for_upcoming_trains env st evs).saved = true ↔
      (env.language_channels ≠ [] ∧
       (check_for_upcoming_trains env st evs).aborted = false ∧ evs ≠ []) := by
  cases hch : env.language_channels.isEmpty with
  | true =>
    rw [tick_eq_of_nochannels env st evs hch]
    have hnil : env.language_channels = [] := List.isEmpty_iff.mp hch
    simp [hnil]
  | false =>
    have hne : env.language_channels ≠ [] := List.isEmpty_eq_false.mp hch
    rw [tick_eq_of_channels env st evs hch]
    cases habl : (announceLoop env st evs).ab
    · rw [if_neg (by simp)]
      simp [hne, List.isEmpty_eq_false]
    · rw [if_pos rfl]
      simp

/-- C4 counterexample: with two healthy configured audiences, a Forbidden
raised while sending to the first (English) audience aborts the fanout, so
the second audience (`zh-TW`, channel 2) — whose destination resolves and
whose send would succeed — receives no attempt at all in that tick. -/
theorem train_forbidden_suppresses_counterexample :
    ("zh-TW", 2) ∈ envF.language_channels ∧ envF.channel_exists 2 = true ∧
    envF.send_forbidden 2 = false ∧
    (check_for_upcoming_trains envF [] [evE1]).sends.filter
      (fun s => s.channel == 2) = [] ∧
    (check_for_upcoming_trains envF [] [evE1]).aborted = true :=
  ⟨by decide, by decide, by decide, by decide, by decide⟩

/-- C4 (amended): when no send raises, the fanout completes and whether a
given configured audience is delivered to depends only on its own channel
resolution and the translation gate — a missing destination at any other
audience cannot suppress it; a raised (forbidden) send, by contrast,
aborts the fanout. -/
theorem train_missing_dest_isolated (env : TrainEnv) (ev : TrainEvent)
    (lang : String) (cid : Nat)
    (hnf : ∀ c, env.send_forbidden c = false)
    (hmem : (lang, cid) ∈ env.language_channels) :
    (fanout env ev env.language_channels).2 = false ∧
    ((fanout env ev env.language_channels).1.filter
        (fun s => s.lang == lang && s.channel == cid) ≠ [] ↔
      (env.channel_exists cid = true ∧
        (lang = "en" ∨ env.translation_enabled = true))) := by
  refine ⟨fanout_noabort env ev hnf _, ?_, ?_⟩
  · intro hne
    obtain ⟨s, hs⟩ := List.exists_mem_of_ne_nil _ hne
    obtain ⟨hsm, hpred⟩ := List.mem_filter.mp hs
    obtain ⟨h1, h2, _, _⟩ := fanout_sends_conds env ev env.language_channels s hsm
    rcases Bool.and_eq_true_iff.mp hpred with ⟨hbl, hbc⟩
    have el : s.lang = lang := eq_of_beq hbl
    have ec : s.channel = cid := eq_of_beq hbc
    rw [el] at h2
    rw [ec] at h1
    exact ⟨h1, h2⟩
  · rintro ⟨hex, hok⟩
    intro hnil
    have hsend := fanout_mem_of env ev lang cid hnf env.language_channels hmem hex hok
    have hmf : (⟨lang, cid, ev.id, buildMessage env ev lang⟩ : Send) ∈
        (fanout env ev env.language_channels).1.filter
          (fun s => s.lang == lang && s.channel == cid) :=
      List.mem_filter.mpr ⟨hsend, by simp⟩
    rw [hnil] at hmf
    cases hmf

/-- C4 witness: with the Spanish destination unresolvable and no raising
sends, the English audience is still attempted. -/
theorem train_missing_dest_isolated_holds :
    (fanout envMD evE1 envMD.language_channels).2 = false ∧
    (fanout envMD evE1 envMD.language_channels).1.filter
      (fun s => s.lang == "en" && s.channel == 1) ≠ [] ∧
    envMD.channel_exists 2 = false :=
  ⟨(train_missing_dest_isolated envMD evE1 "en" 1 (fun _ => rfl) (by decide)).1,
   (train_missing_dest_isolated envMD evE1 "en" 1 (fun _ => rfl) (by decide)).2.mpr
     ⟨rfl, Or.inl rfl⟩,
   rfl⟩

/-- C5 counterexample: a Forbidden send to the only configured audience
aborts the tick before `announced_event_ids.add`, leaving the candidate id
unmarked — so a per-audience delivery failure can leave the id unmarked. -/
theorem train_forbidden_unmarked_counterexample :
    (check_for_upcoming_trains envF5 [] [evE1]).aborted = true ∧
    evE1.id ∉ (check_for_upcoming_trains envF5 [] [evE1]).announced :=
  ⟨by decide, by decide⟩

/-- C5 (amended): when no send raises (missing destinations and
translation skips included, in any combination), once the fanout loop over
the configured audiences completes, every fetched candidate's id is marked
announced; only a raised send can leave an id unmarked. -/
theorem train_marks_after_attempts (env : TrainEnv) (st : List String)
    (evs : List TrainEvent) (ev : TrainEvent)
    (hnf : ∀ c, env.send_forbidden c = false)
    (hch : env.language_channels ≠ [])
    (hev : ev ∈ evs) :
    ev.id ∈ (check_for_upcoming_trains env st evs).announced := by
  have hch2 : env.language_channels.isEmpty = false := List.isEmpty_eq_false.mpr hch
  have hab : (check_for_upcoming_trains env st evs).aborted = false := by
    rw [tick_eq_of_channels env st evs hch2]
    simp [announceLoop_noabort env hnf evs st]
  exact tick_marks env st evs hab hch2 ev hev

/-- C5 witness: even with every destination unresolvable, the candidate id
is still marked announced after the tick. -/
theorem train_marks_after_attempts_holds :
    evE1.id ∈ (check_for_upcoming_trains envM [] [evE1]).announced :=
  train_marks_after_attempts envM [] [evE1] evE1 (fun _ => rfl) (by decide) (by decide)

/-- C6: every previous-snapshot title absent from the current titles is
rendered exactly once as a struck-through `(Ended)` entry, titles still
present are not struck, and the persisted snapshot is unconditionally
replaced by the title-to-start mapping of the current fetch. -/
theorem recon_ended_once_and_replace (prev : List (String × String))
    (current : List CalEvent)
    (hnd : (prev.map Prod.fst).Nodup) :
    (update_events_post prev current).fields =
      current.map (fun ev => (eventFieldName prev ev, eventFieldValue ev)) ++
        strikeOf prev current
    ∧ (∀ t s, (t, s) ∈ prev → t ∉ titlesOf current →
        (strikeOf prev current).count
          ("~~" ++ t ++ "~~ (Ended)", "~~**Start:** " ++ s ++ "~~") = 1)
    ∧ (∀ t s, (t, s) ∈ prev → t ∈ titlesOf current →
        ("~~" ++ t ++ "~~ (Ended)", "~~**Start:** " ++ s ++ "~~") ∉
          strikeOf prev current)
    ∧ (update_events_post prev current).snapshot = snapshotOf current
    ∧ (update_events_post prev current).saved = true :=
  ⟨rfl,
   fun t s hm ha => strikeOf_count prev current hnd t s hm ha,
   fun t s _ hp => strikeOf_not_mem prev current t s hp,
   rfl, rfl⟩

/-- C6 witness: the spec scenario — previous snapshot `{"Standup": "9am"}`,
empty current fetch — yields exactly one struck-through
`~~Standup~~ (Ended)` field and an empty persisted snapshot. -/
theorem recon_ended_once_and_replace_scenario :
    (strikeOf [("Standup", "9am")] []).count
      ("~~Standup~~ (Ended)", "~~**Start:** 9am~~") = 1 ∧
    (update_events_post [("Standup", "9am")] []).snapshot = [] ∧
    (update_events_post [("Standup", "9am")] []).saved = true :=
  ⟨(recon_ended_once_and_replace [("Standup", "9am")] [] (by decide)).2.1
      "Standup" "9am" (by decide) (by decide),
   (recon_ended_once_and_replace [("Standup", "9am")] [] (by decide)).2.2.2.1,
   (recon_ended_once_and_replace [("Standup", "9am")] [] (by decide)).2.2.2.2⟩

/-- C7 counterexample: in the calendar cog's live-summary renderer a
date-only start is parsed to midnight and rendered with a clock time, in
UTC — `2026-10-12` renders as `Monday, October 12 at 12:00 AM UTC`. -/
theorem calendar_allday_clock_counterexample :
    calendarRenderStart (.date ⟨2026, 10, 12⟩) =
      "Monday, October 12 at 12:00 AM UTC" ∧
    ':' ∈ (calendarRenderStart (.date ⟨2026, 10, 12⟩)).data :=
  ⟨by decide, by decide⟩

/-- C7 (amended): in the events cog's renderer a date-only start never
renders a clock time and a timed start renders the civil time of the
instant shifted to the fixed UTC-2 offset (always a different time-of-day
than UTC); the calendar cog's live-summary renderer instead renders every
date-only start with a clock time. -/
theorem start_rendering_fixed_offset :
    (∀ d : SimpleDate, ':' ∉ (eventsRenderStart (.date d)).data)
    ∧ (∀ dt : CivilDateTime, eventsRenderStart (.dateTime dt) =
        eventsTimedFmt (shiftBack2h dt) ++ " (UTC-2)")
    ∧ (∀ dt : CivilDateTime, dt.hour < 24 → dt.minute < 60 →
        minutesOfDay (shiftBack2h dt) = (minutesOfDay dt + 1320) % 1440 ∧
        minutesOfDay (shiftBack2h dt) ≠ minutesOfDay dt)
    ∧ (∀ d : SimpleDate, ':' ∈ (calendarRenderStart (.date d)).data) := by
  refine ⟨?_, fun dt => rfl, fun dt hh hm => shiftBack2h_minutes dt hh hm, ?_⟩
  · intro d
    show ':' ∉ (dateAbbrevFmt d.year d.month d.day ++ " (All-day)").data
    intro h
    rw [String.data_append] at h
    rcases List.mem_append.mp h with h | h
    · exact dateAbbrevFmt_noColon _ _ _ h
    · exact absurd h (by decide)
  · intro d
    show ':' ∈ (calTimedFmt ⟨d.year, d.month, d.day, 0, 0⟩).data
    unfold calTimedFmt
    simp only [String.data_append, List.mem_append]
    exact Or.inl (Or.inl (Or.inl (Or.inl (Or.inr (by decide)))))

/-- C7 witness: concrete instances of each amended clause. -/
theorem start_rendering_fixed_offset_holds :
    ':' ∉ (eventsRenderStart (.date ⟨2026, 1, 5⟩)).data ∧
    (minutesOfDay (shiftBack2h ⟨2026, 1, 5, 1, 30⟩) =
        (minutesOfDay ⟨2026, 1, 5, 1, 30⟩ + 1320) % 1440 ∧
      minutesOfDay (shiftBack2h ⟨2026, 1, 5, 1, 30⟩) ≠
        minutesOfDay ⟨2026, 1, 5, 1, 30⟩) ∧
    ':' ∈ (calendarRenderStart (.date ⟨2026, 2, 2⟩)).data :=
  ⟨start_rendering_fixed_offset.1 ⟨2026, 1, 5⟩,
   start_rendering_fixed_offset.2.2.1 ⟨2026, 1, 5, 1, 30⟩ (by decide) (by decide),
   start_rendering_fixed_offset.2.2.2 ⟨2026, 2, 2⟩⟩

/-- C8 counterexample: the snapshot loaders (`events.py` and `calendar.py`
`load_previous_events`) have no except-branch around `json.load`, so a
malformed snapshot file propagates the parse error out of the loader
instead of yielding the empty initial state. -/
theorem snapshot_loader_raises_counterexample :
    CalendarCog.load_previous_events FileState.malformed = Except.error () ∧
    EventsCog.load_previous_events FileState.malformed = Except.error () :=
  ⟨rfl, rfl⟩

/-- C8 (amended): the announced-id loader treats a malformed or missing
file as the empty set and never raises, while the title-keyed snapshot
loaders propagate the parse error on a malformed file (a missing file
still yields the empty snapshot). -/
theorem state_loading_behaviour :
    (load_announced_events FileState.malformed = [] ∧
     load_announced_events FileState.absent = [] ∧
     ∀ ids, load_announced_events (FileState.valid ids) = ids)
    ∧ (CalendarCog.load_previous_events FileState.malformed = Except.error () ∧
       CalendarCog.load_previous_events FileState.absent = Except.ok [] ∧
       ∀ m, CalendarCog.load_previous_events (FileState.valid m) = Except.ok m)
    ∧ EventsCog.load_previous_events FileState.malformed = Except.error () :=
  ⟨⟨rfl, rfl, fun _ => rfl⟩, ⟨rfl, rfl, fun _ => rfl⟩, rfl⟩

/-- C9 counterexample: with translation disabled, a configured non-English
audience with a healthy destination is silently skipped — the Spanish
channel 3 receives no delivery attempt although the tick completes. -/
theorem translation_gate_skips_counterexample :
    ("es", 3) ∈ envT.language_channels ∧ envT.channel_exists 3 = true ∧
    envT.send_forbidden 3 = false ∧
    (check_for_upcoming_trains envT [] [evE1]).aborted = false ∧
    (check_for_upcoming_trains envT [] [evE1]).sends.filter
      (fun s => s.channel == 3) = [] :=
  ⟨by decide, by decide, by decide, by decide, by decide⟩

/-- C9 (amended): for a resolvable audience with no raising sends, an
English audience receives the source-text message, a non-English audience
receives the translated title and label when translation is enabled, and a
non-English audience is skipped entirely (no attempt with source text)
when translation is disabled. -/
theorem train_translation_gate (env : TrainEnv) (ev : TrainEvent)
    (lang : String) (cid : Nat) (t : String)
    (hnf : ∀ c, env.send_forbidden c = false)
    (hmem : (lang, cid) ∈ env.language_channels)
    (hex : env.channel_exists cid = true)
    (hsum : ev.summary = some t) (ht : t ≠ "")
    (hdesc : ev.description = none) :
    (lang = "en" →
      (⟨"en", cid, ev.id, "**Upcoming Train: " ++ t ++ "**"⟩ : Send) ∈
        (fanout env ev env.language_channels).1)
    ∧ (lang ≠ "en" → env.translation_enabled = true →
      (⟨lang, cid, ev.id, "**" ++ env.tr "Upcoming Train:" lang ++ " " ++
          env.tr t lang ++ "**"⟩ : Send) ∈
        (fanout env ev env.language_channels).1)
    ∧ (lang ≠ "en" → env.translation_enabled = false →
      (fanout env ev env.language_channels).1.filter
        (fun s => s.lang == lang) = []) := by
  refine ⟨?_, ?_, ?_⟩
  · intro hl
    subst hl
    have hben : buildMessage env ev "en" = "**Upcoming Train: " ++ t ++ "**" := by
      simp [buildMessage, hsum, hdesc, joinWith]
    have hm := fanout_mem_of env ev "en" cid hnf env.language_channels hmem hex
      (Or.inl rfl)
    rw [hben] at hm
    exact hm
  · intro hl hen
    have hbot : buildMessage env ev lang =
        "**" ++ env.tr "Upcoming Train:" lang ++ " " ++ env.tr t lang ++ "**" := by
      simp [buildMessage, hsum, hdesc, translate_text, hl, ht, joinWith]
    have hm := fanout_mem_of env ev lang cid hnf env.language_channels hmem hex
      (Or.inr hen)
    rw [hbot] at hm
    exact hm
  · intro hl hen
    rw [List.filter_eq_nil_iff]
    intro s hs
    obtain ⟨_, hcond, _, _⟩ := fanout_sends_conds env ev env.language_channels s hs
    intro hbeq
    have hsl : s.lang = lang := eq_of_beq hbeq
    rcases hcond with hse | hte
    · rw [hsl] at hse
      exact hl hse
    · rw [hte] at hen
      cases hen

/-- C9 witness: the English audience of the healthy configuration receives
the source-text message for the scenario event. -/
theorem train_translation_gate_holds :
    (⟨"en", 1, "e1", "**Upcoming Train: Kickoff**"⟩ : Send) ∈
      (fanout envS evE1 envS.language_channels).1 :=
  (train_translation_gate envS evE1 "en" 1 "Kickoff" (fun _ => rfl) (by decide)
    rfl rfl (by decide) rfl).1 rfl

/-- C10: the on-demand commands neither consult nor modify the announced-id
dedup store — the in-memory set is returned unchanged, the announced file
is never saved, the posted listing is identical for any two dedup states,
and every fetched event (announced or not) contributes its block to the
listing. -/
theorem on_demand_no_dedup_effect (env : TrainEnv) (st st2 : List String)
    (events : List TrainEvent) :
    (manual_train_trigger env st events).announced = st
    ∧ (manual_train_trigger env st events).saved = false
    ∧ (manual_train_trigger env st events).posted =
        (manual_train_trigger env st2 events).posted
    ∧ (upcoming_trains env st events).announced = st
    ∧ (upcoming_trains env st events).saved = false
    ∧ (upcoming_trains env st events).posted = (upcoming_trains env st2 events).posted
    ∧ (∀ ev ∈ events, trainEventDetails ev ∈ manualTriggerParts events)
    ∧ (∀ ev ∈ events, trainEventDetails ev ∈ upcomingTrainsParts events) := by
  refine ⟨?_, ?_, ?_, ?_, ?_, ?_, ?_, ?_⟩
  · cases h : env.language_channels with
    | nil => simp [manual_train_trigger, h]
    | cons a rest =>
      obtain ⟨l, c⟩ := a
      simp only [manual_train_trigger, h]
      split <;> rfl
  · cases h : env.language_channels with
    | nil => simp [manual_train_trigger, h]
    | cons a rest =>
      obtain ⟨l, c⟩ := a
      simp only [manual_train_trigger, h]
      split <;> rfl
  · cases h : env.language_channels with
    | nil => simp [manual_train_trigger, h]
    | cons a rest =>
      obtain ⟨l, c⟩ := a
      simp only [manual_train_trigger, h]
      split <;> rfl
  · unfold upcoming_trains
    split <;> rfl
  · unfold upcoming_trains
    split <;> rfl
  · unfold upcoming_trains
    split <;> rfl
  · intro ev hev
    have hne : events.isEmpty = false := by
      cases events
      · cases hev
      · rfl
    unfold manualTriggerParts
    rw [hne]
    simp only [Bool.false_eq_true, if_false]
    exact List.mem_append_right _ (List.mem_map_of_mem _ hev)
  · intro ev hev
    unfold upcomingTrainsParts
    exact List.mem_append_right _ (List.mem_map_of_mem _ hev)

/-- C10 witness: with `e1` already in the dedup store, both on-demand
commands leave the store unchanged, save nothing, and still include the
already-announced event in their listings. -/
theorem on_demand_no_dedup_effect_holds :
    (manual_train_trigger envS ["e1"] [evE1]).announced = ["e1"] ∧
    (manual_train_trigger envS ["e1"] [evE1]).saved = false ∧
    trainEventDetails evE1 ∈ manualTriggerParts [evE1] ∧
    trainEventDetails evE1 ∈ upcomingTrainsParts [evE1] :=
  ⟨(on_demand_no_dedup_effect envS ["e1"] [] [evE1]).1,
   (on_demand_no_dedup_effect envS ["e1"] [] [evE1]).2.1,
   (on_demand_no_dedup_effect envS ["e1"] [] [evE1]).2.2.2.2.2.2.1 evE1 (by decide),
   (on_demand_no_dedup_effect envS ["e1"] [] [evE1]).2.2.2.2.2.2.2 evE1 (by decide)⟩

end BotModel
